import Mathlib

/-!
Verification of the grievance-handling endpoint in `src/main.py`
(repository `Red_Tape_Reducer`).

The development shallowly embeds the program:

* `extract_text_from_file`, `extract_text_from_image` — the two extractors
  (file reads, pdf page lists, OCR fragments are oracles in a `World`);
* `sanitizeStr` — the response sanitizer
  `re.sub(r"<fence>(json)?\s*([\s\S]*?)<fence>", r"\2", result).strip()`
  (`<fence>` = three backticks), modelled as the left-to-right scan that the
  Python regex engine performs: at each position, a match requires an opening
  fence, an optional literal `json` tag, a greedy run of whitespace, a lazy
  body, and a closing fence; the body is replaced for the whole match;
* `redtape_reducer` — the request dispatcher, with a `Trace` recording which
  external calls happened, whether the scoped temporary file was created and
  removed, and the exact text/override passed to the analyzer.

Machine strings are `String`/`List Char`; Python `str.strip`, `str.lower`
and `\s` are modelled on the ASCII range used by the program.
-/

namespace RedTape

/-- Python's `\s` / `str.strip` whitespace class, ASCII range. -/
def isPySpace (c : Char) : Bool :=
  c == ' ' || c == '\t' || c == '\n' || c == '\r' || c == '\x0b' || c == '\x0c'

/-- Python `str.strip()` on a character list: drop whitespace at both ends. -/
def pyStrip (l : List Char) : List Char :=
  List.rdropWhile isPySpace (l.dropWhile isPySpace)

/-- Python `str.strip()` on a `String`. -/
def pyStripStr (s : String) : String :=
  String.mk (pyStrip s.data)

/-- Python `str.lower()` on one character (ASCII letters only; the program
only lowercases file extensions and paths). -/
def asciiLower (c : Char) : Char :=
  if 65 ≤ c.toNat ∧ c.toNat ≤ 90 then Char.ofNat (c.toNat + 32) else c

/-- Python `str.lower()` on a character list. -/
def pyLowerL (l : List Char) : List Char := l.map asciiLower

/-- Python `str.lower()` on a `String`. -/
def pyLowerStr (s : String) : String := String.mk (pyLowerL s.data)

/-- The backtick character, `Char.ofNat 96`. -/
def tick : Char := Char.ofNat 96

/-- The three-backtick code fence delimiter. -/
def fence : List Char := [tick, tick, tick]

/-- Does the list begin with a three-backtick fence? -/
def fenceHead (l : List Char) : Bool :=
  match l with
  | a :: b :: c :: _ => a == tick && b == tick && c == tick
  | _ => false

/-- Does the list begin with the literal tag `json`? -/
def jsonHead (l : List Char) : Bool :=
  match l with
  | a :: b :: c :: d :: _ => a == 'j' && b == 's' && c == 'o' && d == 'n'
  | _ => false

/-- Find the earliest occurrence of a closing fence: returns the characters
before it and the characters after it.  This is the lazy group
`([\s\S]*?)` followed by the closing fence. -/
def findClose : List Char → Option (List Char × List Char)
  | [] => none
  | c :: cs =>
    if fenceHead (c :: cs) then some ([], cs.drop 2)
    else (findClose cs).map fun pr => (c :: pr.1, pr.2)

/-- The greedy `(json)?` of the regex: skip a literal `json` tag if present. -/
def skipTag (l : List Char) : List Char := if jsonHead l then l.drop 4 else l

/-- What remains after the opening fence, the optional tag and the greedy
`\s*` whitespace run; the lazy body and the closing fence live here. -/
def matchTail (l : List Char) : List Char :=
  (skipTag (l.drop 3)).dropWhile isPySpace

/-- One attempted regex match at the current position: an opening fence,
an optional literal `json` tag, greedy whitespace, then the lazy body up to
the earliest closing fence.  Returns (captured body, text after the match).
Greediness of the optional tag and of `\s*` is faithful: neither can hide a
closing fence, because neither ever consumes a backtick. -/
def tryMatch (l : List Char) : Option (List Char × List Char) :=
  if fenceHead l then findClose (matchTail l) else none

/-- Fuel-indexed scan of `re.sub`: at each position try a match; on success
emit the captured body and continue after the match, otherwise copy one
character.  Fuel `l.length` always suffices. -/
def subAllF : Nat → List Char → List Char
  | 0, l => l
  | n + 1, l =>
    match tryMatch l with
    | some (g, rest) => g ++ subAllF n rest
    | none =>
      match l with
      | [] => []
      | c :: cs => c :: subAllF n cs

/-- The substitution `re.sub(r"<fence>(json)?\s*([\s\S]*?)<fence>", r"\2", l)`. -/
def subAll (l : List Char) : List Char := subAllF l.length l

/-- Line 190 of `src/main.py`:
`clean_result = re.sub(r"<fence>(json)?\s*([\s\S]*?)<fence>", r"\2", result).strip()`. -/
def sanitizeL (l : List Char) : List Char := pyStrip (subAll l)

/-- The response sanitizer on `String`s. -/
def sanitizeStr (s : String) : String := String.mk (sanitizeL s.data)

/-- Relation `Pre a b`: the list `b` begins with the list `a`. -/
def Pre (a b : List Char) : Prop := ∃ t, a ++ t = b

/-- A three-backtick fence occurs at position `i` of `l`. -/
def fenceAt (l : List Char) (i : Nat) : Prop := Pre fence (l.drop i)

/-- Predicate: `l` contains two fences far enough apart for the regex to match at some
position (an opening fence at `i` and a closing one at `j ≥ i + 3`).  The
sanitizer's output never satisfies this, which is why it is idempotent. -/
def Sep (l : List Char) : Prop := ∃ i j, fenceAt l i ∧ fenceAt l j ∧ i + 3 ≤ j

/-! ## The external world

`extract_text_from_file` opens the saved file with one of three libraries,
`extract_text_from_image` runs OCR, `classify_image_with_gemini` and
`analyze_grievance` call the generative model, `base64.b64decode` decodes the
JSON `file` field and `json.loads` parses the sanitized reply.  Each of these
is an external effect; a `World` fixes their outcomes for one request.
Errors are Python exceptions, carried as their message string. -/

structure World where
  /-- outcome of `base64.b64decode(data["file"])` (decoded bytes are opaque). -/
  b64decode : Except String Unit
  /-- outcome of `open(...).read()` for a `.txt` file. -/
  readTxt : Except String String
  /-- outcome of `pdfplumber.open`: per page, `page.extract_text()` with
  `None` and `""` both modelled as `""` (both are falsy at line 36). -/
  pdfPages : Except String (List String)
  /-- outcome of `docx2txt.process`. -/
  docxText : Except String String
  /-- outcome of `Image.open` + `reader.readtext`: the recognized fragments
  `res[1]`, in order. -/
  ocrRead : Except String (List String)
  /-- outcome of `classify_image_with_gemini` (the label, already stripped
  inside that function). -/
  classify : Except String String
  /-- outcome of `analyze_grievance`: the model's raw text reply. -/
  modelReply : Except String String
  /-- Outcome of `json.loads` on the sanitized reply: parse-error message, or an opaque
  representation of the parsed object. -/
  loads : String → Except String String

/-- Function `extract_text_from_file(upload_file)`, lines 25–42 of `src/main.py`:
lowercase the path, branch on its suffix, read text, and `.strip()` it.
Unknown suffixes return the empty string without touching the world. -/
def extract_text_from_file (upload_file : String) (w : World) : Except String String :=
  let ext := pyLowerL upload_file.data
  let body : Except String String :=
    if (".txt".data).isSuffixOf ext then
      w.readTxt
    else if (".pdf".data).isSuffixOf ext then
      (w.pdfPages).map fun pages =>
        pages.foldl (fun acc p => if p ≠ "" then acc ++ p ++ "\n" else acc) ""
    else if (".docx".data).isSuffixOf ext then
      w.docxText
    else
      .ok ""
  body.map pyStripStr

/-- Function `extract_text_from_image(uploaded_image)`, lines 45–49: join the OCR
fragments with single spaces and `.strip()`. -/
def extract_text_from_image (w : World) : Except String String :=
  (w.ocrRead).map fun frags => pyStripStr (String.intercalate " " frags)

/-! ## The request and the dispatcher -/

/-- The JSON body obtained from `request.get_json(silent=True)`, holding the
three fields the handler reads.  All values are strings (the handler calls
`.strip()`/`.lower()`/`b64decode` on them). -/
structure JsonData where
  text : Option String
  file : Option String
  fileType : Option String
deriving DecidableEq, Repr

/-- The incoming HTTP request as the handler observes it. -/
structure PyRequest where
  method : String
  /-- Flag `request.is_json`. -/
  is_json : Bool
  /-- Result of `request.get_json(silent=True)`, `none` when parsing fails or the
  body is falsy (the handler treats both as "Invalid JSON"). -/
  getJson : Option JsonData
  /-- Content of `request.files` as (field name, filename) pairs; `[]` when falsy. -/
  files : List (String × String)
  /-- Result of `request.data.decode("utf-8")`: `none` when decoding raises. -/
  rawData : Option String
deriving DecidableEq, Repr

/-- Instrumentation: which external calls the dispatcher made, the life of
the scoped temporary file, and the arguments of the `analyze_grievance`
call (grievance text, category override). -/
structure Trace where
  tempCreated : Bool := false
  tempRemoved : Bool := false
  b64Called : Bool := false
  textExtractCalled : Bool := false
  ocrCalled : Bool := false
  classifyCalled : Bool := false
  analyzed : Option (String × Option String) := none
deriving DecidableEq, Repr

/-- A response body: `jsonify` of an error message, of the parsed model
object, or of the parse-failure payload
`{"error": "Failed to parse JSON", "raw_response": ..., "exception": ...}`. -/
inductive RBody where
  | errMsg (s : String)
  | parsed (obj : String)
  | parseFail (raw exc : String)
deriving DecidableEq, Repr

/-- A step of the handler body: an early `return` with a response, a raised
exception (caught by the top-level `except`), or continuation values. -/
inductive Step (α : Type) where
  | done (r : RBody × Nat)
  | raised (e : String)
  | next (a : α)
deriving DecidableEq, Repr

/-- The temp path of the JSON branch, line 145:
`tempfile.NamedTemporaryFile(delete=False, suffix=dot+file_ext)`. -/
def tmpPathJson (ext : String) : String := "/tmp/tmpjsn" ++ "." ++ ext

/-- Python `filename.split(".")[-1]`: the run after the last dot
(the whole name when there is no dot). -/
def lastExtL (l : List Char) : List Char :=
  (l.reverse.takeWhile (· ≠ '.')).reverse

/-- Python `os.path.splitext(filename)[1]`: the suffix from the last dot,
except that leading dots of the name are not an extension. -/
def splitextSuffix (l : List Char) : List Char :=
  let lead := l.takeWhile (· == '.')
  let rest := l.drop lead.length
  if rest.contains '.' then '.' :: lastExtL rest else []

/-- The temp path of the multipart branch, line 162: a fresh name with
suffix `os.path.splitext(uploaded_file.filename)[1]`. -/
def tmpPathMp (filename : String) : String :=
  "/tmp/tmpmp" ++ String.mk (splitextSuffix filename.data)

/-- Lines 149–156 and 164–172: with the temp file already written, branch on
the declared extension; documents go to `extract_text_from_file`, images to
`extract_text_from_image` with the classifier fallback and the sentinel
text, anything else is skipped; then `os.remove(tmp_path)`.  The two call
sites differ only in the recognised document extensions (`docExts`). -/
def extractDispatch (path ext : String) (docExts : List String) (w : World)
    (t : Trace) : Step (String × Option String) × Trace :=
  if ext ∈ docExts then
    let t := { t with textExtractCalled := true }
    match extract_text_from_file path w with
    | .error e => (.raised e, t)
    | .ok g => (.next (g, none), { t with tempRemoved := true })
  else if ext ∈ ["jpg", "jpeg", "png"] then
    let t := { t with ocrCalled := true }
    match extract_text_from_image w with
    | .error e => (.raised e, t)
    | .ok g =>
      if pyStripStr g = "" then
        let t := { t with classifyCalled := true }
        match w.classify with
        | .error e => (.raised e, t)
        | .ok c => (.next ("No text provided", some c), { t with tempRemoved := true })
      else (.next (g, none), { t with tempRemoved := true })
  else (.next ("", none), { t with tempRemoved := true })

/-- Lines 142–156: the JSON base64-file branch.  `b64decode`, lowercase the
declared type, write the temp file with suffix `.{file_ext}`, dispatch on
`["pdf", "docx", "doc", "txt"]` / images. -/
def jsonFileBranch (ft : String) (w : World) (t : Trace) :
    Step (String × Option String) × Trace :=
  let t := { t with b64Called := true }
  match w.b64decode with
  | .error e => (.raised e, t)
  | .ok _ =>
    let ext := pyLowerStr ft
    let t := { t with tempCreated := true }
    extractDispatch (tmpPathJson ext) ext ["pdf", "docx", "doc", "txt"] w t

/-- Lines 159–172: the multipart branch.  Save to a temp file with the
`splitext` suffix, take the extension from `filename.split(".")[-1].lower()`,
dispatch on `["pdf", "docx", "txt"]` / images. -/
def mpFileBranch (filename : String) (w : World) (t : Trace) :
    Step (String × Option String) × Trace :=
  let t := { t with tempCreated := true }
  let ext := pyLowerStr (String.mk (lastExtL filename.data))
  extractDispatch (tmpPathMp filename) ext ["pdf", "docx", "txt"] w t

/-- The `elif "file" in data and "file_type" in data` test of line 142:
both keys present take the base64-file branch, otherwise nothing happens. -/
def jsonShapeNoText (d : JsonData) (w : World) (t0 : Trace) :
    Step (String × Option String) × Trace :=
  match d.file, d.fileType with
  | some _, some ft => jsonFileBranch ft w t0
  | _, _ => (.next ("", none), t0)

/-- Lines 132–172: shape cases 1 (JSON) and 2 (multipart). -/
def shapesPhase (req : PyRequest) (w : World) :
    Step (String × Option String) × Trace :=
  let t0 : Trace := {}
  if req.is_json then
    match req.getJson with
    | none => (.done (.errMsg "Invalid JSON", 400), t0)
    | some d =>
      match d.text with
      | some tx =>
        if pyStripStr tx ≠ "" then (.next (tx, none), t0)
        else jsonShapeNoText d w t0
      | none => jsonShapeNoText d w t0
  else if req.files ≠ [] then
    match req.files.lookup "file" with
    | some filename => mpFileBranch filename w t0
    | none => (.next ("", none), t0)
  else (.next ("", none), t0)

/-- Lines 175–181, case 3: when `grievance_text` is still empty, decode the
raw body, strip it, and use it if non-empty; a decode failure is swallowed. -/
def rawPhase (req : PyRequest) (g : String) : String :=
  if g = "" then
    match req.rawData with
    | some r => if pyStripStr r ≠ "" then pyStripStr r else g
    | none => g
  else g

/-- Lines 129–196: the whole `try` body of the handler. -/
def runBody (req : PyRequest) (w : World) : (RBody × Nat) × Trace :=
  match shapesPhase req w with
  | (.done r, t) => (r, t)
  | (.raised e, t) => ((.errMsg e, 500), t)
  | (.next (g0, o), t) =>
    let g := rawPhase req g0
    if g = "" then ((.errMsg "No text or file provided", 400), t)
    else
      let t := { t with analyzed := some (g, o) }
      match w.modelReply with
      | .error e => ((.errMsg e, 500), t)
      | .ok raw =>
        let clean := sanitizeStr raw
        match w.loads clean with
        | .ok obj => ((.parsed obj, 200), t)
        | .error e => ((.parseFail clean e, 200), t)

/-- Entry point `redtape_reducer(request)`, lines 115–199: reject non-POST, otherwise
run the `try` body (raised exceptions already yield the generic 500 inside
`runBody`, mirroring the top-level `except`). -/
def redtape_reducer (req : PyRequest) (w : World) : (RBody × Nat) × Trace :=
  if req.method ≠ "POST" then ((.errMsg "Only POST allowed", 405), {})
  else runBody req w

/-! ## Lemmas about fences -/

theorem pre_fence_head {x : Char} {w : List Char} (h : Pre fence (x :: w)) :
    x = tick := by
  obtain ⟨t, ht⟩ := h
  exact (by simpa [fence] using congrArg (List.head? ·) ht : tick = x).symm

theorem pre_fence_cons3 {x y z : Char} {w : List Char} :
    Pre fence (x :: y :: z :: w) ↔ x = tick ∧ y = tick ∧ z = tick := by
  constructor
  · rintro ⟨t, ht⟩
    simp only [fence, List.cons_append, List.nil_append, List.cons.injEq] at ht
    exact ⟨ht.1.symm, ht.2.1.symm, ht.2.2.1.symm⟩
  · rintro ⟨hx, hy, hz⟩
    exact ⟨w, by simp [fence, hx, hy, hz]⟩

theorem pre_fence_two {x y : Char} {w : List Char} (h : Pre fence (x :: y :: w)) :
    x = tick ∧ y = tick := by
  obtain ⟨t, ht⟩ := h
  simp only [fence, List.cons_append, List.nil_append, List.cons.injEq] at ht
  exact ⟨ht.1.symm, ht.2.1.symm⟩

theorem fenceAt_nil {i : Nat} : ¬ fenceAt [] i := by
  rintro ⟨t, ht⟩
  simp [fence] at ht

theorem fenceAt_cons_succ {c : Char} {l : List Char} {i : Nat} :
    fenceAt (c :: l) (i + 1) ↔ fenceAt l i := by
  simp [fenceAt]

theorem fenceAt_drop {l : List Char} {p k : Nat} :
    fenceAt (l.drop p) k ↔ fenceAt l (p + k) := by
  simp [fenceAt, List.drop_drop]

theorem fenceAt_length {l : List Char} {i : Nat} (h : fenceAt l i) :
    i + 3 ≤ l.length := by
  obtain ⟨t, ht⟩ := h
  have h3 : (l.drop i).length = 3 + t.length := by
    rw [← ht]; simp [fence]; omega
  simp only [List.length_drop] at h3
  omega

theorem fenceAt_append_right {a b : List Char} {j : Nat} (h : fenceAt b j) :
    fenceAt (a ++ b) (a.length + j) := by
  unfold fenceAt at h ⊢
  rwa [List.drop_append]

theorem fenceAt_append_left {a b : List Char} {q : Nat} (h : fenceAt a q) :
    fenceAt (a ++ b) q := by
  have hq : q ≤ a.length := by have := fenceAt_length h; omega
  obtain ⟨t, ht⟩ := h
  refine ⟨t ++ b, ?_⟩
  rw [List.drop_append_of_le_length hq, ← List.append_assoc, ht]

theorem fenceAt_split {a b : List Char} {q : Nat} (h : fenceAt (a ++ b) q)
    (hq : a.length ≤ q) : fenceAt b (q - a.length) := by
  unfold fenceAt at h ⊢
  have : q = a.length + (q - a.length) := by omega
  rwa [this, List.drop_append] at h

theorem tick_mem_of_fence {l : List Char} {q : Nat} (h : fenceAt l q) :
    tick ∈ l := by
  obtain ⟨t, ht⟩ := h
  have : tick ∈ l.drop q := by
    rw [← ht]; simp [fence]
  exact List.drop_subset _ _ this

theorem no_tick_no_fence {l : List Char} {q : Nat}
    (h : ∀ c ∈ l, c ≠ tick) : ¬ fenceAt l q :=
  fun hf => h tick (tick_mem_of_fence hf) rfl

theorem no_tick_no_sep {l : List Char} (h : ∀ c ∈ l, c ≠ tick) : ¬ Sep l := by
  rintro ⟨i, _, hi, _, _⟩
  exact no_tick_no_fence h hi

theorem fenceAt_append_cases {a b : List Char} {q : Nat}
    (h : fenceAt (a ++ b) q) (ha : ∀ c ∈ a, c ≠ tick) :
    a.length ≤ q ∧ fenceAt b (q - a.length) := by
  rcases Nat.lt_or_ge q a.length with hlt | hge
  · exfalso
    obtain ⟨t, ht⟩ := h
    rw [List.drop_append_of_le_length (Nat.le_of_lt hlt)] at ht
    have hne : a.drop q ≠ [] := by
      intro hnil
      rw [hnil] at ht
      have : a.length - q = 0 := by
        simpa using congrArg List.length hnil
      omega
    obtain ⟨x, xs, hx⟩ := List.exists_cons_of_ne_nil hne
    rw [hx, List.cons_append] at ht
    have hxt : x = tick := pre_fence_head ⟨t, ht⟩
    have hmem : x ∈ a := by
      have : x ∈ a.drop q := by rw [hx]; exact List.mem_cons_self _ _
      exact List.drop_subset _ _ this
    exact ha x hmem hxt
  · exact ⟨hge, fenceAt_split h hge⟩

/-! ## Lemmas about `findClose` -/

theorem fenceHead_iff {l : List Char} : fenceHead l = true ↔ Pre fence l := by
  match l with
  | [] => simp [fenceHead]; rintro ⟨t, ht⟩; simp [fence] at ht
  | [a] =>
    simp [fenceHead]; rintro ⟨t, ht⟩; simp [fence] at ht
  | [a, b] =>
    simp [fenceHead]; rintro ⟨t, ht⟩; simp [fence] at ht
  | a :: b :: c :: w =>
    simp only [fenceHead, Bool.and_eq_true, beq_iff_eq]
    rw [pre_fence_cons3]
    tauto

theorem jsonHead_iff {l : List Char} :
    jsonHead l = true ↔ Pre ['j', 's', 'o', 'n'] l := by
  match l with
  | [] => simp [jsonHead]; rintro ⟨t, ht⟩; simp at ht
  | [a] => simp [jsonHead]; rintro ⟨t, ht⟩; simp at ht
  | [a, b] => simp [jsonHead]; rintro ⟨t, ht⟩; simp at ht
  | [a, b, c] => simp [jsonHead]; rintro ⟨t, ht⟩; simp at ht
  | a :: b :: c :: d :: w =>
    simp only [jsonHead, Bool.and_eq_true, beq_iff_eq]
    constructor
    · rintro ⟨⟨⟨ha, hb⟩, hc⟩, hd⟩
      exact ⟨w, by simp [ha, hb, hc, hd]⟩
    · rintro ⟨t, ht⟩
      simp only [List.cons_append, List.nil_append, List.cons.injEq] at ht
      exact ⟨⟨⟨ht.1.symm, ht.2.1.symm⟩, ht.2.2.1.symm⟩, ht.2.2.2.1.symm⟩

theorem findClose_some_eq {l p r : List Char}
    (h : findClose l = some (p, r)) : l = p ++ fence ++ r := by
  induction l generalizing p with
  | nil => simp [findClose] at h
  | cons c cs ih =>
    rw [findClose] at h
    by_cases hf : fenceHead (c :: cs)
    · rw [if_pos hf] at h
      have hp : ([] : List Char) = p := by
        have := congrArg (fun o => Option.map Prod.fst o) h; simpa using this
      have hr : cs.drop 2 = r := by
        have := congrArg (fun o => Option.map Prod.snd o) h; simpa using this
      obtain ⟨t, ht⟩ := fenceHead_iff.mp hf
      subst hp
      have htr : t = r := by
        have h2 : fence ++ t = c :: cs := ht
        have : cs = tick :: tick :: t := by
          have := congrArg List.tail h2
          simpa [fence] using this.symm
        rw [this] at hr
        simpa using hr
      simp only [List.nil_append]
      rw [← htr, ht.symm]
    · rw [if_neg hf] at h
      cases hfc : findClose cs with
      | none => rw [hfc] at h; simp at h
      | some pr =>
        rw [hfc] at h
        obtain ⟨p', r'⟩ := pr
        simp at h
        obtain ⟨hp, hr⟩ := h
        subst hp hr
        have := ih (p := p') hfc
        simp [this]

theorem findClose_some_min {l p r : List Char}
    (h : findClose l = some (p, r)) : ∀ q < p.length, ¬ fenceAt l q := by
  induction l generalizing p with
  | nil => simp [findClose] at h
  | cons c cs ih =>
    rw [findClose] at h
    by_cases hf : fenceHead (c :: cs)
    · rw [if_pos hf] at h
      have hp : ([] : List Char) = p := by
        have := congrArg (fun o => Option.map Prod.fst o) h; simpa using this
      subst hp
      intro q hq
      simp at hq
    · rw [if_neg hf] at h
      cases hfc : findClose cs with
      | none => rw [hfc] at h; simp at h
      | some pr =>
        rw [hfc] at h
        obtain ⟨p', r'⟩ := pr
        simp at h
        obtain ⟨hp, hr⟩ := h
        subst hp
        subst hr
        intro q hq
        cases q with
        | zero =>
          intro hfa
          exact hf (fenceHead_iff.mpr (by simpa [fenceAt] using hfa))
        | succ q' =>
          rw [fenceAt_cons_succ]
          exact ih hfc q' (by simpa using hq)

theorem findClose_none {l : List Char} (h : findClose l = none) :
    ∀ q, ¬ fenceAt l q := by
  induction l with
  | nil => intro q; exact fenceAt_nil
  | cons c cs ih =>
    rw [findClose] at h
    by_cases hf : fenceHead (c :: cs)
    · rw [if_pos hf] at h; simp at h
    · rw [if_neg hf] at h
      have hfc : findClose cs = none := by
        cases hx : findClose cs with
        | none => rfl
        | some pr => rw [hx] at h; simp at h
      intro q
      cases q with
      | zero =>
        intro hfa
        exact hf (fenceHead_iff.mpr (by simpa [fenceAt] using hfa))
      | succ q' =>
        rw [fenceAt_cons_succ]
        exact ih hfc q'

theorem findClose_ne_none {l : List Char} {q : Nat} (h : fenceAt l q) :
    findClose l ≠ none :=
  fun hn => findClose_none hn q h

theorem findClose_clean {p r : List Char} (hp : ∀ c ∈ p, c ≠ tick) :
    findClose (p ++ fence ++ r) = some (p, r) := by
  induction p with
  | nil =>
    simp only [List.nil_append]
    have : fence ++ r = tick :: tick :: (tick :: r) := by simp [fence]
    rw [this, findClose]
    rw [if_pos (fenceHead_iff.mpr ⟨r, by simp [fence]⟩)]
    simp
  | cons c p' ih =>
    have hc : c ≠ tick := hp c (List.mem_cons_self _ _)
    have hrest : ∀ x ∈ p', x ≠ tick := fun x hx => hp x (List.mem_cons_of_mem _ hx)
    have hshape : (c :: p') ++ fence ++ r = c :: (p' ++ fence ++ r) := by simp
    rw [hshape, findClose]
    have hnf : ¬ fenceHead (c :: (p' ++ fence ++ r)) = true := by
      intro hf
      exact hc (pre_fence_head (x := c) (by
        obtain ⟨t, ht⟩ := fenceHead_iff.mp hf
        exact ⟨t, ht⟩))
    rw [if_neg hnf, ih hrest]
    simp

/-! ## Lemmas about `tryMatch` -/

theorem tick_not_space : isPySpace tick = false := by decide

theorem fence_decomp {l : List Char} (h : fenceHead l = true) :
    l = fence ++ l.drop 3 := by
  obtain ⟨t, ht⟩ := fenceHead_iff.mp h
  have : l.drop 3 = t := by
    rw [← ht]; simp [fence]
  rw [this, ht]

/-- The characters the optional tag and the whitespace run skip over are
never backticks, so they cannot hide a closing fence. -/
theorem matchTail_decomp {l : List Char} (h : fenceHead l = true) :
    ∃ pre, (∀ c ∈ pre, c ≠ tick) ∧ fence ++ (pre ++ matchTail l) = l := by
  set u := l.drop 3 with hu
  have hskip : ∃ a, (∀ c ∈ a, c ≠ tick) ∧ a ++ skipTag u = u := by
    unfold skipTag
    by_cases hj : jsonHead u
    · rw [if_pos hj]
      obtain ⟨s, hs⟩ := jsonHead_iff.mp hj
      refine ⟨['j', 's', 'o', 'n'], by decide, ?_⟩
      have : u.drop 4 = s := by rw [← hs]; simp
      rw [this, hs]
    · rw [if_neg hj]
      exact ⟨[], by simp, by simp⟩
  obtain ⟨a, ha, hau⟩ := hskip
  have hws : ∃ b, (∀ c ∈ b, c ≠ tick) ∧
      b ++ (skipTag u).dropWhile isPySpace = skipTag u := by
    refine ⟨(skipTag u).takeWhile isPySpace, ?_, List.takeWhile_append_dropWhile _ _⟩
    intro c hc hct
    have := List.mem_takeWhile_imp hc
    rw [hct] at this
    simp [tick_not_space] at this
  obtain ⟨b, hb, hbu⟩ := hws
  refine ⟨a ++ b, ?_, ?_⟩
  · intro c hc
    rcases List.mem_append.mp hc with h1 | h2
    · exact ha c h1
    · exact hb c h2
  · have hmt : matchTail l = (skipTag u).dropWhile isPySpace := by
      unfold matchTail; rw [← hu]
    rw [hmt, List.append_assoc, hbu, hau]
    exact (fence_decomp h).symm

theorem tryMatch_some_fences {l g r : List Char}
    (h : tryMatch l = some (g, r)) :
    fenceAt l 0 ∧ ∃ j, 3 ≤ j ∧ fenceAt l j := by
  unfold tryMatch at h
  by_cases hf : fenceHead l
  · rw [if_pos hf] at h
    have h0 : fenceAt l 0 := by
      unfold fenceAt
      simpa using fenceHead_iff.mp hf
    obtain ⟨pre, hpre, hdec⟩ := matchTail_decomp hf
    have heq : matchTail l = g ++ fence ++ r := findClose_some_eq h
    have hfa : fenceAt (matchTail l) g.length := by
      unfold fenceAt
      rw [heq, List.append_assoc, List.drop_left]
      exact ⟨r, rfl⟩
    have : fenceAt l ((fence ++ pre).length + g.length) := by
      have := fenceAt_append_right (a := fence ++ pre) hfa
      rwa [List.append_assoc, hdec] at this
    refine ⟨h0, (fence ++ pre).length + g.length, ?_, this⟩
    simp [fence]
    omega
  · rw [if_neg hf] at h; simp at h

theorem tryMatch_ne_none {l : List Char} {j : Nat}
    (h0 : fenceAt l 0) (hj3 : 3 ≤ j) (hj : fenceAt l j) :
    tryMatch l ≠ none := by
  have hf : fenceHead l = true := by
    apply fenceHead_iff.mpr
    simpa [fenceAt] using h0
  unfold tryMatch
  rw [if_pos hf]
  obtain ⟨pre, hpre, hdec⟩ := matchTail_decomp hf
  have hsplit : fenceAt (pre ++ matchTail l) (j - 3) := by
    have := fenceAt_split (a := fence) (b := pre ++ matchTail l)
      (by rwa [hdec]) (by simpa [fence] using hj3)
    simpa [fence] using this
  have hmt : fenceAt (matchTail l) (j - 3 - pre.length) :=
    (fenceAt_append_cases hsplit hpre).2
  exact findClose_ne_none hmt

theorem tryMatch_rest_lt {l g r : List Char}
    (h : tryMatch l = some (g, r)) : r.length < l.length := by
  unfold tryMatch at h
  by_cases hf : fenceHead l
  · rw [if_pos hf] at h
    have heq : matchTail l = g ++ fence ++ r := findClose_some_eq h
    have hlen : (matchTail l).length = g.length + 3 + r.length := by
      rw [heq]; simp [fence]; omega
    have h1 : (matchTail l).length ≤ (skipTag (l.drop 3)).length := by
      unfold matchTail
      exact (List.dropWhile_sublist _).length_le
    have h2 : (skipTag (l.drop 3)).length ≤ (l.drop 3).length := by
      unfold skipTag
      by_cases hj : jsonHead (l.drop 3)
      · rw [if_pos hj]; simp; omega
      · rw [if_neg hj]
    have h3 : (l.drop 3).length = l.length - 3 := by simp
    have h4 : 3 ≤ l.length := by
      obtain ⟨t, ht⟩ := fenceHead_iff.mp hf
      have := congrArg List.length ht
      simp [fence] at this
      omega
    omega
  · rw [if_neg hf] at h; simp at h

theorem tryMatch_fence {l : List Char} {pr : List Char × List Char}
    (h : tryMatch l = some pr) : Pre fence l := by
  unfold tryMatch at h
  by_cases hf : fenceHead l
  · exact fenceHead_iff.mp hf
  · rw [if_neg hf] at h; simp at h

/-! ## Lemmas about `subAll` -/

theorem subAllF_nil (n : Nat) : subAllF n [] = [] := by
  cases n with
  | zero => rfl
  | succ n =>
    have : tryMatch [] = none := by
      unfold tryMatch
      rw [if_neg (by simp [fenceHead])]
    simp [subAllF, this]

theorem subAllF_stable_aux (k : Nat) : ∀ (l : List Char), l.length = k →
    ∀ n m, l.length ≤ n → l.length ≤ m → subAllF n l = subAllF m l := by
  induction k using Nat.strong_induction_on with
  | _ k ih =>
  intro l hk n m hn hm
  cases l with
  | nil => rw [subAllF_nil, subAllF_nil]
  | cons c cs =>
    have hlen : (c :: cs).length = cs.length + 1 := by simp
    obtain ⟨n', rfl⟩ : ∃ n', n = n' + 1 := by
      cases n with
      | zero => simp at hn
      | succ n' => exact ⟨n', rfl⟩
    obtain ⟨m', rfl⟩ : ∃ m', m = m' + 1 := by
      cases m with
      | zero => simp at hm
      | succ m' => exact ⟨m', rfl⟩
    simp only [subAllF]
    cases htm : tryMatch (c :: cs) with
    | some pr =>
      obtain ⟨g, r⟩ := pr
      have hr : r.length < (c :: cs).length := tryMatch_rest_lt htm
      have := ih r.length (by omega) r rfl n' m' (by omega) (by omega)
      simp [this]
    | none =>
      have := ih cs.length (by omega) cs rfl n' m' (by omega) (by omega)
      simp [this]

theorem subAllF_stable (l : List Char) (n m : Nat)
    (hn : l.length ≤ n) (hm : l.length ≤ m) : subAllF n l = subAllF m l :=
  subAllF_stable_aux l.length l rfl n m hn hm

theorem subAll_nil : subAll [] = [] := subAllF_nil _

theorem subAll_some {l g r : List Char} (h : tryMatch l = some (g, r)) :
    subAll l = g ++ subAll r := by
  obtain ⟨t, ht⟩ := tryMatch_fence h
  have hne : l ≠ [] := by
    intro hl; rw [hl] at ht; simp [fence] at ht
  obtain ⟨k, hk⟩ : ∃ k, l.length = k + 1 := by
    cases hl : l with
    | nil => exact absurd hl hne
    | cons a as => exact ⟨as.length, by simp⟩
  unfold subAll
  rw [hk]
  simp only [subAllF, h]
  congr 1
  exact subAllF_stable r k r.length (by have := tryMatch_rest_lt h; omega) le_rfl

theorem subAll_none {c : Char} {cs : List Char}
    (h : tryMatch (c :: cs) = none) : subAll (c :: cs) = c :: subAll cs := by
  unfold subAll
  simp only [List.length_cons, subAllF, h]

theorem subAll_id_of_nomatch {l : List Char}
    (h : ∀ p, tryMatch (l.drop p) = none) : subAll l = l := by
  induction l with
  | nil => exact subAll_nil
  | cons c cs ih =>
    have h0 : tryMatch (c :: cs) = none := by simpa using h 0
    rw [subAll_none h0]
    congr 1
    exact ih fun p => by simpa using h (p + 1)

theorem nomatch_of_noSep {l : List Char} (h : ¬ Sep l) :
    ∀ p, tryMatch (l.drop p) = none := by
  intro p
  cases htm : tryMatch (l.drop p) with
  | none => rfl
  | some pr =>
    exfalso
    obtain ⟨g, r⟩ := pr
    obtain ⟨h0, j, hj3, hj⟩ := tryMatch_some_fences htm
    exact h ⟨p, p + j, by simpa using fenceAt_drop.mp h0,
      fenceAt_drop.mp hj, by omega⟩

theorem subAll_id_of_noSep {l : List Char} (h : ¬ Sep l) : subAll l = l :=
  subAll_id_of_nomatch (nomatch_of_noSep h)

theorem subAll_tick1 {l : List Char} (h : Pre [tick] (subAll l)) :
    Pre [tick] l := by
  cases htm : tryMatch l with
  | some pr =>
    obtain ⟨t, ht⟩ := tryMatch_fence htm
    exact ⟨tick :: tick :: t, by simpa [fence] using ht⟩
  | none =>
    cases l with
    | nil => rw [subAll_nil] at h; obtain ⟨t, ht⟩ := h; simp at ht
    | cons c cs =>
      rw [subAll_none htm] at h
      obtain ⟨t, ht⟩ := h
      simp only [List.cons_append, List.nil_append, List.cons.injEq] at ht
      refine ⟨cs, ?_⟩
      simp only [List.cons_append, List.nil_append]
      rw [ht.1]

theorem subAll_tick2 {l : List Char} (h : Pre [tick, tick] (subAll l)) :
    Pre [tick, tick] l := by
  cases htm : tryMatch l with
  | some pr =>
    obtain ⟨t, ht⟩ := tryMatch_fence htm
    exact ⟨tick :: t, by simpa [fence] using ht⟩
  | none =>
    cases l with
    | nil => rw [subAll_nil] at h; obtain ⟨t, ht⟩ := h; simp at ht
    | cons c cs =>
      rw [subAll_none htm] at h
      obtain ⟨t, ht⟩ := h
      simp only [List.cons_append, List.nil_append, List.cons.injEq] at ht
      obtain ⟨u, hu⟩ := subAll_tick1 ⟨t, by simpa using ht.2⟩
      refine ⟨u, ?_⟩
      simp only [List.cons_append, List.nil_append] at hu ⊢
      rw [← ht.1, ← hu]

/-! ## No separated fence pair survives `subAll` -/

theorem fenceAt_cons_zero {x : Char} {w : List Char} :
    fenceAt (x :: w) 0 ↔ x = tick ∧ Pre [tick, tick] w := by
  unfold fenceAt
  simp only [List.drop_zero]
  constructor
  · rintro ⟨t, ht⟩
    simp only [fence, List.cons_append, List.nil_append, List.cons.injEq] at ht
    exact ⟨ht.1.symm, ⟨t, by simp [ht.2]⟩⟩
  · rintro ⟨hx, u, hu⟩
    simp only [List.cons_append, List.nil_append] at hu
    exact ⟨u, by simp [fence, hx, hu]⟩

/-- Every fence of `g ++ X` sits at or after position `g.length`, provided
no fence of `g ++ fence ++ R` sits before `g.length` (the minimality of the
lazy group): a fence starting inside `g` would extend, with at most two of
its backticks taken from the closing fence, to a fence of `g ++ fence ++ R`
at the same position. -/
theorem fence_bound_aux {g R X : List Char} {q : Nat}
    (hmin : ∀ q' < g.length, ¬ fenceAt (g ++ fence ++ R) q')
    (hq : fenceAt (g ++ X) q) : g.length ≤ q := by
  by_contra hlt
  push_neg at hlt
  apply hmin q hlt
  have hqle : q ≤ g.length := Nat.le_of_lt hlt
  unfold fenceAt at hq ⊢
  rw [List.drop_append_of_le_length hqle] at hq
  rw [List.append_assoc, List.drop_append_of_le_length hqle]
  have hne : g.drop q ≠ [] := by
    intro hnil
    have := congrArg List.length hnil
    simp at this
    omega
  match hD : g.drop q with
  | [] => exact absurd hD hne
  | [d1] =>
    rw [hD] at hq
    have hd1 : d1 = tick := pre_fence_head (by simpa using hq)
    refine ⟨tick :: R, ?_⟩
    simp [fence, hd1]
  | [d1, d2] =>
    rw [hD] at hq
    obtain ⟨hd1, hd2⟩ := pre_fence_two (by simpa using hq)
    refine ⟨tick :: tick :: R, ?_⟩
    simp [fence, hd1, hd2]
  | d1 :: d2 :: d3 :: D' =>
    rw [hD] at hq
    obtain ⟨hd1, hd2, hd3⟩ := pre_fence_cons3.mp (by simpa using hq)
    refine ⟨D' ++ fence ++ R, ?_⟩
    simp [fence, hd1, hd2, hd3]

theorem noSep_subAll (l : List Char) : ¬ Sep (subAll l) := by
  cases htm : tryMatch l with
  | some pr =>
    obtain ⟨g, r⟩ := pr
    rw [subAll_some htm]
    have hfc : findClose (matchTail l) = some (g, r) := by
      unfold tryMatch at htm
      by_cases hf : fenceHead l
      · rwa [if_pos hf] at htm
      · rw [if_neg hf] at htm; simp at htm
    have heq : matchTail l = g ++ fence ++ r := findClose_some_eq hfc
    have hmin : ∀ q < g.length, ¬ fenceAt (g ++ fence ++ r) q := by
      intro q hql
      rw [← heq]
      exact findClose_some_min hfc q hql
    rintro ⟨i, j, hi, hj, hij⟩
    have hgi : g.length ≤ i := fence_bound_aux hmin hi
    have hgj : g.length ≤ j := fence_bound_aux hmin hj
    exact noSep_subAll r ⟨i - g.length, j - g.length,
      fenceAt_split hi hgi, fenceAt_split hj hgj, by omega⟩
  | none =>
    cases l with
    | nil =>
      rw [subAll_nil]
      rintro ⟨i, j, hi, _, _⟩
      exact fenceAt_nil hi
    | cons c cs =>
      rw [subAll_none htm]
      rintro ⟨i, j, hi, hj, hij⟩
      cases i with
      | succ i' =>
        obtain ⟨j', rfl⟩ : ∃ j', j = j' + 1 := ⟨j - 1, by omega⟩
        exact noSep_subAll cs ⟨i', j', fenceAt_cons_succ.mp hi,
          fenceAt_cons_succ.mp hj, by omega⟩
      | zero =>
        obtain ⟨hc, h2sub⟩ := fenceAt_cons_zero.mp hi
        have h2cs : Pre [tick, tick] cs := subAll_tick2 h2sub
        obtain ⟨j', rfl⟩ : ∃ j', j = j' + 1 := ⟨j - 1, by omega⟩
        have hjsub : fenceAt (subAll cs) j' := fenceAt_cons_succ.mp hj
        have hj2 : 2 ≤ j' := by omega
        by_cases hex : ∃ q, 2 ≤ q ∧ fenceAt cs q
        · obtain ⟨q, hq2, hfq⟩ := hex
          exact tryMatch_ne_none (fenceAt_cons_zero.mpr ⟨hc, h2cs⟩)
            (j := q + 1) (by omega) (fenceAt_cons_succ.mpr hfq) htm
        · push_neg at hex
          have hnone : ∀ p, tryMatch (cs.drop p) = none := by
            intro p
            cases hm2 : tryMatch (cs.drop p) with
            | none => rfl
            | some pr2 =>
              exfalso
              obtain ⟨g2, r2⟩ := pr2
              obtain ⟨h0, j2, hj23, hj2f⟩ := tryMatch_some_fences hm2
              exact hex (p + j2) (by omega) (fenceAt_drop.mp hj2f)
          rw [subAll_id_of_nomatch hnone] at hjsub
          exact hex j' hj2 hjsub
termination_by l.length
decreasing_by
  all_goals first
  | exact tryMatch_rest_lt htm
  | simp

/-! ## The sanitizer is idempotent -/

open List in
theorem sep_of_strip {l : List Char} (h : Sep (pyStrip l)) : Sep l := by
  unfold pyStrip at h
  obtain ⟨i, j, hi, hj, hij⟩ := h
  set m := l.dropWhile isPySpace with hm
  obtain ⟨rest, hrest⟩ : ∃ rest, rdropWhile isPySpace m ++ rest = m :=
    rdropWhile_prefix (p := isPySpace) (l := m)
  have hi' : fenceAt m i := by
    rw [← hrest]; exact fenceAt_append_left hi
  have hj' : fenceAt m j := by
    rw [← hrest]; exact fenceAt_append_left hj
  set a := l.takeWhile isPySpace with ha
  have hdec : a ++ m = l := takeWhile_append_dropWhile _ _
  refine ⟨a.length + i, a.length + j, ?_, ?_, by omega⟩
  · rw [← hdec]; exact fenceAt_append_right hi'
  · rw [← hdec]; exact fenceAt_append_right hj'

theorem dropWhile_head_false {p : Char → Bool} {l t : List Char} {c : Char}
    (h : l.dropWhile p = c :: t) : p c = false := by
  induction l with
  | nil => simp at h
  | cons a as ih =>
    by_cases hp : p a
    · rw [List.dropWhile_cons_of_pos hp] at h
      exact ih h
    · rw [List.dropWhile_cons_of_neg hp] at h
      obtain ⟨rfl, -⟩ : a = c ∧ as = t := by
        constructor <;> [exact (List.cons.inj h).1; exact (List.cons.inj h).2]
      simpa using hp

open List in
theorem strip_inner (m : List Char) (hm : m.dropWhile isPySpace = m) :
    pyStrip (rdropWhile isPySpace m) = rdropWhile isPySpace m := by
  unfold pyStrip
  have hdw : (rdropWhile isPySpace m).dropWhile isPySpace =
      rdropWhile isPySpace m := by
    cases hrc : rdropWhile isPySpace m with
    | nil => simp
    | cons c t =>
      obtain ⟨rest, hrest⟩ : ∃ rest, rdropWhile isPySpace m ++ rest = m :=
        rdropWhile_prefix (p := isPySpace) (l := m)
      rw [hrc] at hrest
      have hmc : m.dropWhile isPySpace = c :: (t ++ rest) := by
        rw [hm, ← hrest]; simp
      have hc : isPySpace c = false := dropWhile_head_false hmc
      exact List.dropWhile_cons_of_neg (by simp [hc])
  rw [hdw, rdropWhile_idempotent]

open List in
theorem pyStrip_idem (l : List Char) : pyStrip (pyStrip l) = pyStrip l := by
  have h1 : pyStrip l = rdropWhile isPySpace (l.dropWhile isPySpace) := rfl
  rw [h1, strip_inner _ (dropWhile_idempotent _ _)]

theorem sanitizeL_idem (l : List Char) : sanitizeL (sanitizeL l) = sanitizeL l := by
  unfold sanitizeL
  have h1 : ¬ Sep (subAll l) := noSep_subAll l
  have h2 : ¬ Sep (pyStrip (subAll l)) := fun hs => h1 (sep_of_strip hs)
  rw [subAll_id_of_noSep h2, pyStrip_idem]

/-- Idempotence of the response sanitizer, at the `String` level. -/
theorem sanitizeStr_idem (s : String) : sanitizeStr (sanitizeStr s) = sanitizeStr s := by
  unfold sanitizeStr
  exact congrArg String.mk (sanitizeL_idem s.data)

/-! ## Removal of a code-fence wrapper -/

theorem subAll_no_tick {l : List Char} (h : ∀ c ∈ l, c ≠ tick) :
    subAll l = l :=
  subAll_id_of_noSep (no_tick_no_sep h)

theorem sanitizeL_no_tick {l : List Char} (h : ∀ c ∈ l, c ≠ tick) :
    sanitizeL l = pyStrip l := by
  unfold sanitizeL
  rw [subAll_no_tick h]

theorem dropWhile_append_fence (x : List Char) :
    (x ++ fence).dropWhile isPySpace = x.dropWhile isPySpace ++ fence := by
  induction x with
  | nil =>
    simp only [List.nil_append, List.dropWhile_nil]
    have : fence = tick :: [tick, tick] := by simp [fence]
    rw [this, List.dropWhile_cons_of_neg (by simp [tick_not_space])]
  | cons c cs ih =>
    by_cases hc : isPySpace c
    · simpa [List.dropWhile_cons_of_pos hc] using ih
    · simp [List.dropWhile_cons_of_neg hc]

theorem pyStrip_dropWhile (x : List Char) :
    pyStrip (x.dropWhile isPySpace) = pyStrip x := by
  unfold pyStrip
  rw [List.dropWhile_idempotent]

theorem no_tick_dropWhile {x : List Char} (hx : ∀ c ∈ x, c ≠ tick) :
    ∀ c ∈ x.dropWhile isPySpace, c ≠ tick := by
  intro c hc
  exact hx c ((List.dropWhile_sublist _).mem hc)

/-- A fence-wrapped payload carrying the `json` tag: the scan removes the
opening fence, the tag, the leading whitespace and the closing fence,
keeping exactly the payload. -/
theorem subAll_json_wrap {x : List Char} (hx : ∀ c ∈ x, c ≠ tick) :
    subAll (fence ++ (['j', 's', 'o', 'n'] ++ (x ++ fence))) =
      x.dropWhile isPySpace := by
  have htm : tryMatch (fence ++ (['j', 's', 'o', 'n'] ++ (x ++ fence))) =
      some (x.dropWhile isPySpace, []) := by
    unfold tryMatch
    rw [if_pos (fenceHead_iff.mpr ⟨_, rfl⟩)]
    have hdrop : (fence ++ (['j', 's', 'o', 'n'] ++ (x ++ fence))).drop 3 =
        ['j', 's', 'o', 'n'] ++ (x ++ fence) := by
      simp [fence]
    unfold matchTail
    rw [hdrop]
    unfold skipTag
    rw [if_pos (jsonHead_iff.mpr ⟨_, rfl⟩)]
    have hdrop4 : (['j', 's', 'o', 'n'] ++ (x ++ fence)).drop 4 = x ++ fence := by
      simp
    rw [hdrop4, dropWhile_append_fence]
    have := findClose_clean (r := []) (no_tick_dropWhile hx)
    simpa using this
  rw [subAll_some htm, subAll_nil, List.append_nil]

/-- If `x` does not begin with the letters `json`, neither does `x` followed
by a fence (the fence supplies backticks, not letters). -/
theorem jsonHead_append_fence {x : List Char}
    (hj : ¬ Pre ['j', 's', 'o', 'n'] x) :
    jsonHead (x ++ fence) = false := by
  cases hjh : jsonHead (x ++ fence) with
  | false => rfl
  | true =>
    exfalso
    obtain ⟨s, hs⟩ := jsonHead_iff.mp hjh
    match x, hs with
    | [], hs => simp [fence] at hs
    | [a], hs =>
      simp only [List.cons_append, List.nil_append, fence,
        List.cons.injEq] at hs
      exact absurd hs.2.1 (by decide)
    | [a, b], hs =>
      simp only [List.cons_append, List.nil_append, fence,
        List.cons.injEq] at hs
      exact absurd hs.2.2.1 (by decide)
    | [a, b, c], hs =>
      simp only [List.cons_append, List.nil_append, fence,
        List.cons.injEq] at hs
      exact absurd hs.2.2.2.1 (by decide)
    | a :: b :: c :: d :: t, hs =>
      simp only [List.cons_append, List.nil_append, List.cons.injEq] at hs
      exact hj ⟨t, by rw [hs.1, hs.2.1, hs.2.2.1, hs.2.2.2.1]; rfl⟩

/-- A fence-wrapped payload with no language tag. -/
theorem subAll_plain_wrap {x : List Char} (hx : ∀ c ∈ x, c ≠ tick)
    (hj : ¬ Pre ['j', 's', 'o', 'n'] x) :
    subAll (fence ++ (x ++ fence)) = x.dropWhile isPySpace := by
  have htm : tryMatch (fence ++ (x ++ fence)) =
      some (x.dropWhile isPySpace, []) := by
    unfold tryMatch
    rw [if_pos (fenceHead_iff.mpr ⟨_, rfl⟩)]
    have hdrop : (fence ++ (x ++ fence)).drop 3 = x ++ fence := by
      simp [fence]
    unfold matchTail
    rw [hdrop]
    unfold skipTag
    rw [if_neg (by simp [jsonHead_append_fence hj])]
    rw [dropWhile_append_fence]
    have := findClose_clean (r := []) (no_tick_dropWhile hx)
    simpa using this
  rw [subAll_some htm, subAll_nil, List.append_nil]

/-! ## Claim C5 -/

/-- C5, counterexample: the sanitizer does not remove an arbitrary language
tag — the regex only knows the literal tag `json`.  A payload fenced with
the tag `python` keeps the tag in the sanitized output, so it does not parse
to the same result as the unwrapped content `2` (and differs from the
sanitizer's output on the unwrapped content). -/
theorem c5_counterexample :
    sanitizeStr "```python 2```" = "python 2" ∧
    sanitizeStr "```python 2```" ≠ sanitizeStr "2" ∧
    sanitizeStr "```json 2```" = "2" := by decide

/-- C5 (amended): the sanitizer removes a code-fence wrapper with no
language tag or with the tag `json` (any other tag stays in the content);
an input without backticks — in particular bare JSON — is returned
unchanged except for whitespace trimming; and sanitization is idempotent
for every input string. -/
theorem c5_amended (x : String) (hx : ∀ c ∈ x.data, c ≠ tick)
    (hj : ¬ Pre ['j', 's', 'o', 'n'] x.data) :
    sanitizeStr ("```json" ++ x ++ "```") = sanitizeStr x ∧
    sanitizeStr ("```" ++ x ++ "```") = sanitizeStr x ∧
    sanitizeStr x = pyStripStr x ∧
    ∀ s : String, sanitizeStr (sanitizeStr s) = sanitizeStr s := by
  have hdata1 : ("```json" : String).data = fence ++ ['j', 's', 'o', 'n'] := by
    decide
  have hdata2 : ("```" : String).data = fence := by decide
  have hplain : sanitizeStr x = pyStripStr x :=
    congrArg String.mk (sanitizeL_no_tick hx)
  refine ⟨?_, ?_, hplain, sanitizeStr_idem⟩
  · unfold sanitizeStr sanitizeL
    rw [String.data_append, String.data_append, hdata1, hdata2]
    rw [List.append_assoc, List.append_assoc]
    rw [subAll_json_wrap hx]
    rw [pyStrip_dropWhile, subAll_no_tick hx]
  · unfold sanitizeStr sanitizeL
    rw [String.data_append, String.data_append, hdata2]
    rw [List.append_assoc]
    rw [subAll_plain_wrap hx hj]
    rw [pyStrip_dropWhile, subAll_no_tick hx]

/-- C5, witness: the amended theorem applied at the payload `" 2"`. -/
theorem c5_witness :
    sanitizeStr ("```json" ++ " 2" ++ "```") = sanitizeStr " 2" ∧
    sanitizeStr ("```" ++ " 2" ++ "```") = sanitizeStr " 2" ∧
    sanitizeStr " 2" = pyStripStr " 2" := by
  have h := c5_amended " 2" (by decide)
    (by rintro ⟨t, ht⟩; exact absurd (List.cons.inj ht).1 (by decide))
  exact ⟨h.1, h.2.1, h.2.2.1⟩

/-! ## Claim C1 -/

/-- C1, evaluation at the failing input: a JSON request carrying a base64
`.txt` file whose extraction raises (`readTxt` errors as for an unreadable
file).  The scoped temporary file is created but never removed — line 156's
`os.remove(tmp_path)` is skipped because the exception jumps to the
top-level handler, which answers the generic 500.  This contradicts the
claimed guaranteed cleanup on every path. -/
theorem c1_temp_leak :
    redtape_reducer
      { method := "POST", is_json := true,
        getJson := some { text := none, file := some "QUJD", fileType := some "txt" },
        files := [], rawData := some "ignored" }
      { b64decode := .ok (), readTxt := .error "corrupt file",
        pdfPages := .ok [], docxText := .ok "", ocrRead := .ok [],
        classify := .ok "", modelReply := .ok "", loads := fun _ => .ok "" } =
    ((.errMsg "corrupt file", 500),
      { tempCreated := true, tempRemoved := false, b64Called := true,
        textExtractCalled := true, ocrCalled := false, classifyCalled := false,
        analyzed := none }) := by decide

/-! ## Claim C2 -/

/-- C2: for every JSON request whose `text` field is present and non-empty
after stripping, the grievance text passed to the analyzer is exactly that
field — even when `file`/`file_type` are also present — and no file is
decoded, no temp file is created, and no extractor runs. -/
theorem c2_json_text_priority (req : PyRequest) (w : World) (d : JsonData)
    (tx : String) (hm : req.method = "POST") (hj : req.is_json = true)
    (hd : req.getJson = some d) (ht : d.text = some tx)
    (hne : pyStripStr tx ≠ "") :
    (redtape_reducer req w).2 = { analyzed := some (tx, none) } := by
  have htxne : tx ≠ "" := by
    intro h; rw [h] at hne; exact hne rfl
  obtain ⟨meth, isj, gj, fls, rd⟩ := req
  obtain ⟨dt, df, dft⟩ := d
  simp only at hm hj hd ht
  subst hm hj hd ht
  unfold redtape_reducer runBody shapesPhase rawPhase
  rw [if_neg (by simp)]
  dsimp
  rw [if_pos hne]
  dsimp
  simp only [if_neg htxne]
  cases w.modelReply with
  | error e => simp [htxne]
  | ok raw =>
    cases hl : w.loads (sanitizeStr raw) with
    | ok obj => simp [htxne, hl]
    | error e => simp [htxne, hl]

/-! ## Helper lemmas for the remaining claims -/

theorem pyStripStr_idem (s : String) : pyStripStr (pyStripStr s) = pyStripStr s :=
  congrArg String.mk (pyStrip_idem s.data)

theorem toNat_ofNat_shift {n : Nat} (h1 : 65 ≤ n) (h2 : n ≤ 90) :
    (Char.ofNat (n + 32)).toNat = n + 32 := by
  interval_cases n <;> decide

theorem asciiLower_dot {c : Char} : asciiLower c = '.' ↔ c = '.' := by
  unfold asciiLower
  by_cases h : 65 ≤ c.toNat ∧ c.toNat ≤ 90
  · rw [if_pos h]
    constructor
    · intro he
      exfalso
      have := congrArg Char.toNat he
      rw [toNat_ofNat_shift h.1 h.2] at this
      have hdot : ('.' : Char).toNat = 46 := by decide
      omega
    · intro he
      exfalso
      have := congrArg Char.toNat he
      have hdot : ('.' : Char).toNat = 46 := by decide
      omega
  · rw [if_neg h]

theorem beq_asciiLower_dot (c : Char) : (asciiLower c == '.') = (c == '.') := by
  by_cases h : c = '.'
  · rw [h]
    have : asciiLower '.' = '.' := asciiLower_dot.mpr rfl
    rw [this]
  · have h2 : asciiLower c ≠ '.' := fun he => h (asciiLower_dot.mp he)
    rw [beq_eq_false_iff_ne.mpr h2, beq_eq_false_iff_ne.mpr h]

theorem ne_dot_asciiLower :
    ((fun c : Char => decide (c ≠ '.')) ∘ asciiLower) =
      (fun c : Char => decide (c ≠ '.')) := by
  funext c
  simp only [Function.comp_apply, ne_eq]
  exact decide_eq_decide.mpr (not_congr asciiLower_dot)

theorem beq_dot_asciiLower :
    ((fun c : Char => c == '.') ∘ asciiLower) = (fun c : Char => c == '.') := by
  funext c
  simp only [Function.comp_apply]
  exact beq_asciiLower_dot c

theorem lastExtL_map_lower (l : List Char) :
    lastExtL (pyLowerL l) = pyLowerL (lastExtL l) := by
  unfold lastExtL pyLowerL
  rw [← List.map_reverse, List.takeWhile_map, ne_dot_asciiLower, ← List.map_reverse]

theorem contains_dot_map_lower (l : List Char) :
    (pyLowerL l).contains '.' = l.contains '.' := by
  induction l with
  | nil => rfl
  | cons c cs ih =>
    unfold pyLowerL at ih ⊢
    simp only [List.map_cons, List.contains_cons, ih]
    congr 1
    rw [Bool.eq_iff_iff]
    simp only [beq_iff_eq]
    constructor
    · intro h
      exact (asciiLower_dot.mp h.symm).symm
    · intro h
      exact (asciiLower_dot.mpr h.symm).symm

theorem splitextSuffix_map_lower (l : List Char) :
    splitextSuffix (pyLowerL l) = pyLowerL (splitextSuffix l) := by
  unfold splitextSuffix
  dsimp only
  have htake : (pyLowerL l).takeWhile (fun c => c == '.') =
      pyLowerL (l.takeWhile (fun c => c == '.')) := by
    unfold pyLowerL
    rw [List.takeWhile_map, beq_dot_asciiLower]
  rw [htake]
  have hlen : (pyLowerL (l.takeWhile fun c => c == '.')).length =
      (l.takeWhile fun c => c == '.').length := by
    unfold pyLowerL; simp
  rw [hlen]
  have hdrop : (pyLowerL l).drop (l.takeWhile fun c => c == '.').length =
      pyLowerL (l.drop (l.takeWhile fun c => c == '.').length) := by
    unfold pyLowerL; rw [List.map_drop]
  rw [hdrop, contains_dot_map_lower]
  by_cases hc : (l.drop (l.takeWhile fun c => c == '.').length).contains '.'
  · rw [if_pos hc, if_pos hc, lastExtL_map_lower]
    have : asciiLower '.' = '.' := asciiLower_dot.mpr rfl
    unfold pyLowerL
    simp [this]
  · rw [if_neg hc, if_neg hc]
    rfl

theorem extractDispatch_analyzed (p e : String) (de : List String) (w : World)
    (t : Trace) : ((extractDispatch p e de w t).2).analyzed = t.analyzed := by
  unfold extractDispatch
  repeat' split
  all_goals rfl

theorem shapesPhase_analyzed (req : PyRequest) (w : World) :
    ((shapesPhase req w).2).analyzed = none := by
  unfold shapesPhase jsonShapeNoText jsonFileBranch mpFileBranch
  repeat' split
  all_goals try rfl
  all_goals rw [extractDispatch_analyzed]

/-- When the extension dispatch produces a category override, the produced
text is the sentinel. -/
theorem extractDispatch_next_override {p e : String} {de : List String}
    {w : World} {t t' : Trace} {g o : String}
    (h : extractDispatch p e de w t = (.next (g, some o), t')) :
    g = "No text provided" := by
  unfold extractDispatch at h
  by_cases h1 : e ∈ de
  · rw [if_pos h1] at h
    cases hx : extract_text_from_file p w with
    | error er => rw [hx] at h; simp at h
    | ok s => rw [hx] at h; simp at h
  · rw [if_neg h1] at h
    by_cases h2 : e ∈ ["jpg", "jpeg", "png"]
    · rw [if_pos h2] at h
      cases hx : extract_text_from_image w with
      | error er => rw [hx] at h; simp at h
      | ok s =>
        rw [hx] at h
        dsimp at h
        by_cases h3 : pyStripStr s = ""
        · rw [if_pos h3] at h
          cases hc : w.classify with
          | error er => rw [hc] at h; simp at h
          | ok c =>
            rw [hc] at h
            simp only [Prod.mk.injEq, Step.next.injEq] at h
            exact h.1.1.symm
        · rw [if_neg h3] at h; simp at h
    · rw [if_neg h2] at h; simp at h

/-- When shape resolution produces a category override, the produced text is
the sentinel. -/
theorem shapesPhase_next_override {req : PyRequest} {w : World} {t : Trace}
    {g o : String} (h : shapesPhase req w = (.next (g, some o), t)) :
    g = "No text provided" := by
  unfold shapesPhase jsonShapeNoText jsonFileBranch mpFileBranch at h
  repeat' split at h
  all_goals
    first
    | (exact extractDispatch_next_override h)
    | simp at h

/-- The body `runBody` only adds the `analyzed` record to the trace produced by shape
resolution: all other instrumentation fields pass through unchanged. -/
theorem runBody_trace_eq (req : PyRequest) (w : World) :
    (runBody req w).2.tempCreated = (shapesPhase req w).2.tempCreated ∧
    (runBody req w).2.tempRemoved = (shapesPhase req w).2.tempRemoved ∧
    (runBody req w).2.b64Called = (shapesPhase req w).2.b64Called ∧
    (runBody req w).2.textExtractCalled = (shapesPhase req w).2.textExtractCalled ∧
    (runBody req w).2.ocrCalled = (shapesPhase req w).2.ocrCalled ∧
    (runBody req w).2.classifyCalled = (shapesPhase req w).2.classifyCalled := by
  unfold runBody
  cases hsp : shapesPhase req w with
  | mk step t =>
    cases step with
    | done r => simp
    | raised e => simp
    | next a =>
      obtain ⟨g0, o⟩ := a
      dsimp only
      split
      · simp
      · cases hmr : w.modelReply with
        | error e => simp [hmr]
        | ok raw =>
          cases hl : w.loads (sanitizeStr raw) with
          | ok obj => simp [hmr, hl]
          | error e => simp [hmr, hl]

/-! ## Claim C3 -/

/-- C3, counterexample: a JSON base64 `.txt` request (a satisfied file
shape) whose extraction succeeds with an empty string.  Contrary to the
claim, the handler falls through to the raw request body: the analyzer
receives the stripped raw body `"hello"`.  The trace confirms the file
shape was taken (`b64Called`, `textExtractCalled`, temp file life cycle). -/
theorem c3_counterexample :
    redtape_reducer
      { method := "POST", is_json := true,
        getJson := some { text := none, file := some "QUJD", fileType := some "txt" },
        files := [], rawData := some " hello " }
      { b64decode := .ok (), readTxt := .ok "   ", pdfPages := .ok [],
        docxText := .ok "", ocrRead := .ok [], classify := .ok "",
        modelReply := .ok "ok", loads := fun _ => .ok "obj" } =
    ((.parsed "obj", 200),
      { tempCreated := true, tempRemoved := true, b64Called := true,
        textExtractCalled := true, ocrCalled := false, classifyCalled := false,
        analyzed := some ("hello", none) }) := by decide

/-- C3 (amended): once a document-extension file shape is matched, the raw
body is still consulted whenever the extraction result is empty — resolution
does not stop at the matched shape.  For every JSON base64 request with a
document extension whose extraction yields the empty string and whose raw
body strips to something non-empty, the analyzer receives the stripped raw
body.  (Only the image path escapes this, because the sentinel text is
non-empty.) -/
theorem c3_amended (meth f ft r : String) (fls : List (String × String))
    (w : World) (hm : meth = "POST")
    (hft : pyLowerStr ft ∈ ["pdf", "docx", "doc", "txt"])
    (hb : w.b64decode = .ok ())
    (hex : extract_text_from_file (tmpPathJson (pyLowerStr ft)) w = .ok "")
    (hr : pyStripStr r ≠ "") :
    (redtape_reducer
      { method := meth, is_json := true,
        getJson := some { text := none, file := some f, fileType := some ft },
        files := fls, rawData := some r } w).2 =
    { tempCreated := true, tempRemoved := true, b64Called := true,
      textExtractCalled := true, ocrCalled := false, classifyCalled := false,
      analyzed := some (pyStripStr r, none) } := by
  subst hm
  unfold redtape_reducer runBody shapesPhase jsonShapeNoText jsonFileBranch
    extractDispatch rawPhase
  rw [if_neg (by simp)]
  try dsimp
  rw [hb]
  try dsimp
  rw [if_pos hft]
  try dsimp
  rw [hex]
  try dsimp
  rw [if_pos hr]
  rw [if_neg hr]
  cases hmr : w.modelReply with
  | error e => simp [hmr]
  | ok raw =>
    cases hl : w.loads (sanitizeStr raw) with
    | ok obj => simp [hmr, hl]
    | error e => simp [hmr, hl]

/-- C3, witness for the amended theorem. -/
theorem c3_witness :
    (redtape_reducer
      { method := "POST", is_json := true,
        getJson := some { text := none, file := some "QUJD", fileType := some "PDF" },
        files := [], rawData := some " raw complaint " }
      { b64decode := .ok (), readTxt := .ok "", pdfPages := .ok ["", ""],
        docxText := .ok "", ocrRead := .ok [], classify := .ok "",
        modelReply := .ok "ok", loads := fun _ => .ok "obj" }).2 =
    { tempCreated := true, tempRemoved := true, b64Called := true,
      textExtractCalled := true, ocrCalled := false, classifyCalled := false,
      analyzed := some (pyStripStr " raw complaint ", none) } :=
  c3_amended "POST" "QUJD" "PDF" " raw complaint " [] _ rfl (by decide) rfl
    rfl (by decide)

/-! ## Claim C4 -/

/-- C4: (1) the invariant — in every completed request whose analyzer call
carried a category override, the grievance text is exactly the sentinel
`"No text provided"` (and in particular non-empty); (2) for a JSON base64
image whose OCR yields an all-whitespace fragment list, the classifier is
invoked and the analyzer receives the sentinel together with the
classifier's label; (3) the same for a multipart image upload. -/
theorem c4_sentinel_invariant :
    (∀ (req : PyRequest) (w : World) (g o : String),
      (redtape_reducer req w).2.analyzed = some (g, some o) →
      g = "No text provided") ∧
    (∀ (f ft : String) (fls : List (String × String)) (rd : Option String)
      (w : World) (frags : List String) (c : String),
      pyLowerStr ft ∈ ["jpg", "jpeg", "png"] →
      w.b64decode = .ok () →
      w.ocrRead = .ok frags →
      pyStripStr (String.intercalate " " frags) = "" →
      w.classify = .ok c →
      (redtape_reducer
        { method := "POST", is_json := true,
          getJson := some { text := none, file := some f, fileType := some ft },
          files := fls, rawData := rd } w).2 =
      { tempCreated := true, tempRemoved := true, b64Called := true,
        textExtractCalled := false, ocrCalled := true, classifyCalled := true,
        analyzed := some ("No text provided", some c) }) ∧
    (∀ (fname : String) (gj : Option JsonData) (rd : Option String)
      (w : World) (frags : List String) (c : String),
      pyLowerStr (String.mk (lastExtL fname.data)) ∈ ["jpg", "jpeg", "png"] →
      w.ocrRead = .ok frags →
      pyStripStr (String.intercalate " " frags) = "" →
      w.classify = .ok c →
      (redtape_reducer
        { method := "POST", is_json := false, getJson := gj,
          files := [("file", fname)], rawData := rd } w).2 =
      { tempCreated := true, tempRemoved := true, b64Called := false,
        textExtractCalled := false, ocrCalled := true, classifyCalled := true,
        analyzed := some ("No text provided", some c) }) := by
  refine ⟨?_, ?_, ?_⟩
  · intro req w g o h
    unfold redtape_reducer at h
    by_cases hm : req.method ≠ "POST"
    · rw [if_pos hm] at h; simp at h
    · rw [if_neg hm] at h
      unfold runBody at h
      cases hsp : shapesPhase req w with
      | mk step t =>
        rw [hsp] at h
        have hta : t.analyzed = none := by
          have h2 := shapesPhase_analyzed req w
          rw [hsp] at h2
          exact h2
        cases step with
        | done r => dsimp at h; rw [hta] at h; simp at h
        | raised e => dsimp at h; rw [hta] at h; simp at h
        | next a =>
          obtain ⟨g0, o0⟩ := a
          dsimp at h
          by_cases hg : rawPhase req g0 = ""
          · rw [if_pos hg] at h; dsimp at h; rw [hta] at h; simp at h
          · rw [if_neg hg] at h
            have hval : rawPhase req g0 = g ∧ o0 = some o := by
              cases hmr : w.modelReply with
              | error e =>
                rw [hmr] at h; simp at h; exact h
              | ok raw =>
                rw [hmr] at h
                dsimp at h
                cases hl : w.loads (sanitizeStr raw) with
                | ok obj => rw [hl] at h; simp at h; exact h
                | error e => rw [hl] at h; simp at h; exact h
            obtain ⟨hg1, ho⟩ := hval
            subst ho
            have hsent : g0 = "No text provided" :=
              shapesPhase_next_override hsp
            subst hsent
            rw [← hg1]
            unfold rawPhase
            rw [if_neg (by decide)]
  · intro f ft fls rd w frags c hmem hb hocr hstrip hc
    have hnotdoc : pyLowerStr ft ∉ ["pdf", "docx", "doc", "txt"] := by
      simp only [List.mem_cons, List.not_mem_nil, or_false] at hmem ⊢
      rcases hmem with h | h | h <;> rw [h] <;> decide
    unfold redtape_reducer runBody shapesPhase jsonShapeNoText jsonFileBranch
      extractDispatch rawPhase extract_text_from_image
    rw [if_neg (by simp)]
    try dsimp
    rw [hb]
    try dsimp
    rw [if_neg hnotdoc, if_pos hmem, hocr]
    simp only [Except.map]
    try dsimp
    rw [hstrip]
    rw [if_pos (by decide : pyStripStr "" = ""), hc]
    try dsimp
    cases hmr : w.modelReply with
    | error e => simp [hmr]
    | ok raw =>
      cases hl : w.loads (sanitizeStr raw) with
      | ok obj => simp [hmr, hl]
      | error e => simp [hmr, hl]
  · intro fname gj rd w frags c hmem hocr hstrip hc
    have hnotdoc : pyLowerStr (String.mk (lastExtL fname.data)) ∉
        ["pdf", "docx", "txt"] := by
      simp only [List.mem_cons, List.not_mem_nil, or_false] at hmem ⊢
      rcases hmem with h | h | h <;> rw [h] <;> decide
    unfold redtape_reducer runBody shapesPhase mpFileBranch
      extractDispatch rawPhase extract_text_from_image
    rw [if_neg (by simp)]
    try dsimp
    rw [show List.lookup "file" [("file", fname)] = some fname from by
      simp [List.lookup]]
    try dsimp
    rw [if_neg hnotdoc, if_pos hmem, hocr]
    simp only [Except.map]
    try dsimp
    rw [hstrip]
    rw [if_pos (by decide : pyStripStr "" = ""), hc]
    try dsimp
    cases hmr : w.modelReply with
    | error e => simp [hmr]
    | ok raw =>
      cases hl : w.loads (sanitizeStr raw) with
      | ok obj => simp [hmr, hl]
      | error e => simp [hmr, hl]

/-- C4, witness: the invariant applied to a completed image request, and
the OCR-empty conjuncts at concrete inputs. -/
theorem c4_witness :
    (redtape_reducer
      { method := "POST", is_json := true,
        getJson := some { text := none, file := some "img", fileType := some "PNG" },
        files := [], rawData := none }
      { b64decode := .ok (), readTxt := .ok "", pdfPages := .ok [],
        docxText := .ok "", ocrRead := .ok ["", " "], classify := .ok "flood",
        modelReply := .ok "ok", loads := fun _ => .ok "obj" }).2 =
    { tempCreated := true, tempRemoved := true, b64Called := true,
      textExtractCalled := false, ocrCalled := true, classifyCalled := true,
      analyzed := some ("No text provided", some "flood") } ∧
    "No text provided" = "No text provided" := by
  constructor
  · exact c4_sentinel_invariant.2.1 "img" "PNG" [] none _ ["", " "] "flood"
      (by decide) rfl rfl (by decide) rfl
  · exact c4_sentinel_invariant.1
      { method := "POST", is_json := true,
        getJson := some { text := none, file := some "img", fileType := some "PNG" },
        files := [], rawData := none }
      { b64decode := .ok (), readTxt := .ok "", pdfPages := .ok [],
        docxText := .ok "", ocrRead := .ok ["", " "], classify := .ok "flood",
        modelReply := .ok "ok", loads := fun _ => .ok "obj" }
      "No text provided" "flood" (by decide)

/-! ## Claim C6 -/

/-- C6: the error policy.  (1) When the resolved request reaches the model
and the model's reply fails strict JSON parsing after sanitization, the
handler answers with the structured payload carrying the error marker, the
sanitized reply verbatim, and the parse exception's message, at the
success-shaped status 200.  (2) An exception raised during shape resolution
(decode, extraction, OCR, classification) is caught once at the top level
and answered as the generic message-only 500.  (3) So is a model-transport
error. -/
theorem c6_error_policy (req : PyRequest) (w : World)
    (hm : req.method = "POST") :
    (∀ g0 o t raw e, shapesPhase req w = (.next (g0, o), t) →
      rawPhase req g0 ≠ "" → w.modelReply = .ok raw →
      w.loads (sanitizeStr raw) = .error e →
      redtape_reducer req w = ((.parseFail (sanitizeStr raw) e, 200),
        { t with analyzed := some (rawPhase req g0, o) })) ∧
    (∀ e t, shapesPhase req w = (.raised e, t) →
      redtape_reducer req w = ((.errMsg e, 500), t)) ∧
    (∀ g0 o t e, shapesPhase req w = (.next (g0, o), t) →
      rawPhase req g0 ≠ "" → w.modelReply = .error e →
      redtape_reducer req w = ((.errMsg e, 500),
        { t with analyzed := some (rawPhase req g0, o) })) := by
  refine ⟨?_, ?_, ?_⟩
  · intro g0 o t raw e hsp hg hmr hl
    unfold redtape_reducer runBody
    rw [if_neg (by rw [hm]; simp), hsp]
    dsimp
    rw [if_neg hg, hmr]
    dsimp
    rw [hl]
  · intro e t hsp
    unfold redtape_reducer runBody
    rw [if_neg (by rw [hm]; simp), hsp]
  · intro g0 o t e hsp hg hmr
    unfold redtape_reducer runBody
    rw [if_neg (by rw [hm]; simp), hsp]
    dsimp
    rw [if_neg hg, hmr]

/-- C6, witness: a JSON-text request whose model reply does not parse. -/
theorem c6_witness :
    redtape_reducer
      { method := "POST", is_json := true,
        getJson := some { text := some "hello", file := none, fileType := none },
        files := [], rawData := none }
      { b64decode := .ok (), readTxt := .ok "", pdfPages := .ok [],
        docxText := .ok "", ocrRead := .ok [], classify := .ok "",
        modelReply := .ok "not json", loads := fun _ => .error "boom" } =
    ((.parseFail "not json" "boom", 200),
      { tempCreated := false, tempRemoved := false, b64Called := false,
        textExtractCalled := false, ocrCalled := false, classifyCalled := false,
        analyzed := some ("hello", none) }) := by
  rw [(c6_error_policy
    { method := "POST", is_json := true,
      getJson := some { text := some "hello", file := none, fileType := none },
      files := [], rawData := none }
    { b64decode := .ok (), readTxt := .ok "", pdfPages := .ok [],
      docxText := .ok "", ocrRead := .ok [], classify := .ok "",
      modelReply := .ok "not json", loads := fun _ => .error "boom" }
    rfl).1 "hello" none {} "not json" "boom" (by decide) (by decide) rfl rfl]
  decide

/-! ## Claim C7 -/

theorem strip_map_ok {b : Except String String} {s : String}
    (h : Except.map pyStripStr b = .ok s) : pyStripStr s = s := by
  cases b with
  | error e => simp [Except.map] at h
  | ok x =>
    simp only [Except.map, Except.ok.injEq] at h
    rw [← h]
    exact pyStripStr_idem x

/-- C7: whatever the oracles return, a successful result of the text
extractor is already stripped of leading and trailing whitespace; and for
every path whose lowercased form ends with none of `.txt`, `.pdf`, `.docx`,
the extractor returns the empty string without consulting any oracle — no
error can arise at this layer. -/
theorem c7_extractor (p : String) (w : World) :
    (∀ s, extract_text_from_file p w = .ok s → pyStripStr s = s) ∧
    ((".txt".data).isSuffixOf (pyLowerL p.data) = false →
      (".pdf".data).isSuffixOf (pyLowerL p.data) = false →
      (".docx".data).isSuffixOf (pyLowerL p.data) = false →
      extract_text_from_file p w = .ok "") := by
  constructor
  · intro s h
    exact strip_map_ok h
  · intro h1 h2 h3
    unfold extract_text_from_file
    dsimp only
    rw [if_neg (by simp [h1]), if_neg (by simp [h2]), if_neg (by simp [h3])]
    simp [Except.map, show pyStripStr "" = "" from by decide]

/-- C7, witness: a `.csv` path returns the empty string (and it is
trivially stripped). -/
theorem c7_witness :
    extract_text_from_file "report.csv"
      { b64decode := .ok (), readTxt := .error "no", pdfPages := .error "no",
        docxText := .error "no", ocrRead := .ok [], classify := .ok "",
        modelReply := .ok "", loads := fun _ => .ok "" } = .ok "" ∧
    pyStripStr "" = "" := by
  have h := c7_extractor "report.csv"
    { b64decode := .ok (), readTxt := .error "no", pdfPages := .error "no",
      docxText := .error "no", ocrRead := .ok [], classify := .ok "",
      modelReply := .ok "", loads := fun _ => .ok "" }
  have h2 := h.2 (by decide) (by decide) (by decide)
  exact ⟨h2, h.1 "" h2⟩

/-! ## Claim C8 -/

/-- C8, counterexample: a multipart upload named `report.doc`, which the
claim says is routed to the Text Extractor.  In the multipart branch the
recognized document set is only `["pdf", "docx", "txt"]` (line 165), so the
`.doc` upload is silently skipped: no extractor of either kind runs, and
the grievance text comes from the raw body instead. -/
theorem c8_counterexample :
    redtape_reducer
      { method := "POST", is_json := false, getJson := none,
        files := [("file", "report.doc")], rawData := some "x" }
      { b64decode := .ok (), readTxt := .ok "from txt", pdfPages := .ok [],
        docxText := .ok "from docx", ocrRead := .ok [], classify := .ok "",
        modelReply := .ok "ok", loads := fun _ => .ok "obj" } =
    ((.parsed "obj", 200),
      { tempCreated := true, tempRemoved := true, b64Called := false,
        textExtractCalled := false, ocrCalled := false, classifyCalled := false,
        analyzed := some ("x", none) }) := by decide

/-- C8 (amended): routing by declared extension.  In the JSON base64 shape
`{pdf, docx, doc, txt}` goes to the Text Extractor and `{jpg, jpeg, png}`
to the Image Text Extractor; in the multipart shape the document set is
only `{pdf, docx, txt}`, the image set is the same, and a multipart `.doc`
upload is silently skipped by both extractors. -/
theorem c8_amended :
    (∀ (f ft : String) (fls : List (String × String)) (rd : Option String)
      (w : World), pyLowerStr ft ∈ ["pdf", "docx", "doc", "txt"] →
      w.b64decode = .ok () →
      (redtape_reducer
        { method := "POST", is_json := true,
          getJson := some { text := none, file := some f, fileType := some ft },
          files := fls, rawData := rd } w).2.textExtractCalled = true) ∧
    (∀ (f ft : String) (fls : List (String × String)) (rd : Option String)
      (w : World), pyLowerStr ft ∈ ["jpg", "jpeg", "png"] →
      w.b64decode = .ok () →
      (redtape_reducer
        { method := "POST", is_json := true,
          getJson := some { text := none, file := some f, fileType := some ft },
          files := fls, rawData := rd } w).2.ocrCalled = true) ∧
    (∀ (fname : String) (gj : Option JsonData) (rd : Option String) (w : World),
      pyLowerStr (String.mk (lastExtL fname.data)) ∈ ["pdf", "docx", "txt"] →
      (redtape_reducer
        { method := "POST", is_json := false, getJson := gj,
          files := [("file", fname)], rawData := rd } w).2.textExtractCalled = true) ∧
    (∀ (fname : String) (gj : Option JsonData) (rd : Option String) (w : World),
      pyLowerStr (String.mk (lastExtL fname.data)) ∈ ["jpg", "jpeg", "png"] →
      (redtape_reducer
        { method := "POST", is_json := false, getJson := gj,
          files := [("file", fname)], rawData := rd } w).2.ocrCalled = true) ∧
    (∀ (fname : String) (gj : Option JsonData) (rd : Option String) (w : World),
      pyLowerStr (String.mk (lastExtL fname.data)) = "doc" →
      (redtape_reducer
        { method := "POST", is_json := false, getJson := gj,
          files := [("file", fname)], rawData := rd } w).2.textExtractCalled = false ∧
      (redtape_reducer
        { method := "POST", is_json := false, getJson := gj,
          files := [("file", fname)], rawData := rd } w).2.ocrCalled = false) := by
  refine ⟨?_, ?_, ?_, ?_, ?_⟩
  · intro f ft fls rd w hft hb
    unfold redtape_reducer
    rw [if_neg (by simp)]
    rw [(runBody_trace_eq _ w).2.2.2.1]
    unfold shapesPhase jsonShapeNoText jsonFileBranch extractDispatch
    try dsimp
    rw [hb]
    try dsimp
    rw [if_pos hft]
    cases hx : extract_text_from_file (tmpPathJson (pyLowerStr ft)) w with
    | error e => rfl
    | ok s => rfl
  · intro f ft fls rd w hft hb
    have hnotdoc : pyLowerStr ft ∉ ["pdf", "docx", "doc", "txt"] := by
      simp only [List.mem_cons, List.not_mem_nil, or_false] at hft ⊢
      rcases hft with h | h | h <;> rw [h] <;> decide
    unfold redtape_reducer
    rw [if_neg (by simp)]
    rw [(runBody_trace_eq _ w).2.2.2.2.1]
    unfold shapesPhase jsonShapeNoText jsonFileBranch extractDispatch
    try dsimp
    rw [hb]
    try dsimp
    rw [if_neg hnotdoc, if_pos hft]
    cases hx : extract_text_from_image w with
    | error e => rfl
    | ok s =>
      dsimp
      by_cases h3 : pyStripStr s = ""
      · rw [if_pos h3]
        cases hc : w.classify with
        | error e => rfl
        | ok c => rfl
      · rw [if_neg h3]
  · intro fname gj rd w hft
    unfold redtape_reducer
    rw [if_neg (by simp)]
    rw [(runBody_trace_eq _ w).2.2.2.1]
    unfold shapesPhase mpFileBranch extractDispatch
    try dsimp
    rw [show List.lookup "file" [("file", fname)] = some fname from by
      simp [List.lookup]]
    try dsimp
    rw [if_pos hft]
    cases hx : extract_text_from_file (tmpPathMp fname) w with
    | error e => rfl
    | ok s => rfl
  · intro fname gj rd w hft
    have hnotdoc : pyLowerStr (String.mk (lastExtL fname.data)) ∉
        ["pdf", "docx", "txt"] := by
      simp only [List.mem_cons, List.not_mem_nil, or_false] at hft ⊢
      rcases hft with h | h | h <;> rw [h] <;> decide
    unfold redtape_reducer
    rw [if_neg (by simp)]
    rw [(runBody_trace_eq _ w).2.2.2.2.1]
    unfold shapesPhase mpFileBranch extractDispatch
    try dsimp
    rw [show List.lookup "file" [("file", fname)] = some fname from by
      simp [List.lookup]]
    try dsimp
    rw [if_neg hnotdoc, if_pos hft]
    cases hx : extract_text_from_image w with
    | error e => rfl
    | ok s =>
      dsimp
      by_cases h3 : pyStripStr s = ""
      · rw [if_pos h3]
        cases hc : w.classify with
        | error e => rfl
        | ok c => rfl
      · rw [if_neg h3]
  · intro fname gj rd w hdoc
    have hnd : pyLowerStr (String.mk (lastExtL fname.data)) ∉
        ["pdf", "docx", "txt"] := by rw [hdoc]; decide
    have hni : pyLowerStr (String.mk (lastExtL fname.data)) ∉
        ["jpg", "jpeg", "png"] := by rw [hdoc]; decide
    constructor
    · unfold redtape_reducer
      rw [if_neg (by simp)]
      rw [(runBody_trace_eq _ w).2.2.2.1]
      unfold shapesPhase mpFileBranch extractDispatch
      try dsimp
      rw [show List.lookup "file" [("file", fname)] = some fname from by
        simp [List.lookup]]
      try dsimp
      rw [if_neg hnd, if_neg hni]
    · unfold redtape_reducer
      rw [if_neg (by simp)]
      rw [(runBody_trace_eq _ w).2.2.2.2.1]
      unfold shapesPhase mpFileBranch extractDispatch
      try dsimp
      rw [show List.lookup "file" [("file", fname)] = some fname from by
        simp [List.lookup]]
      try dsimp
      rw [if_neg hnd, if_neg hni]

/-- C8, witness: the JSON `.doc` routing and the multipart `.docx` routing
at concrete inputs. -/
theorem c8_witness :
    (redtape_reducer
      { method := "POST", is_json := true,
        getJson := some { text := none, file := some "Zg==", fileType := some "doc" },
        files := [], rawData := some "x" }
      { b64decode := .ok (), readTxt := .ok "", pdfPages := .ok [],
        docxText := .ok "", ocrRead := .ok [], classify := .ok "",
        modelReply := .ok "ok", loads := fun _ => .ok "obj" }).2.textExtractCalled
      = true ∧
    (redtape_reducer
      { method := "POST", is_json := false, getJson := none,
        files := [("file", "a.docx")], rawData := some "x" }
      { b64decode := .ok (), readTxt := .ok "", pdfPages := .ok [],
        docxText := .ok "", ocrRead := .ok [], classify := .ok "",
        modelReply := .ok "ok", loads := fun _ => .ok "obj" }).2.textExtractCalled
      = true := by
  constructor
  · exact c8_amended.1 "Zg==" "doc" [] (some "x") _ (by decide) rfl
  · exact c8_amended.2.2.1 "a.docx" none (some "x") _ (by decide)

/-! ## Claim C9 -/

/-- C9: the JSON base64-file branch requires both keys.  When `text` is
absent or strips to empty and exactly one of `file`/`file_type` is present,
the file is never decoded (no `b64decode` call, no temporary file) and the
handler falls through to the raw body: whenever the raw body decodes and
strips to a non-empty string, that string is the analyzed grievance. -/
theorem c9_file_requires_both_keys (dt df dft : Option String)
    (fls : List (String × String)) (rd : Option String) (w : World)
    (htext : dt = none ∨ ∃ tx, dt = some tx ∧ pyStripStr tx = "")
    (honeof : (df ≠ none ∧ dft = none) ∨ (df = none ∧ dft ≠ none)) :
    (redtape_reducer
      { method := "POST", is_json := true,
        getJson := some { text := dt, file := df, fileType := dft },
        files := fls, rawData := rd } w).2.b64Called = false ∧
    (redtape_reducer
      { method := "POST", is_json := true,
        getJson := some { text := dt, file := df, fileType := dft },
        files := fls, rawData := rd } w).2.tempCreated = false ∧
    (∀ r, rd = some r → pyStripStr r ≠ "" →
      (redtape_reducer
        { method := "POST", is_json := true,
          getJson := some { text := dt, file := df, fileType := dft },
          files := fls, rawData := rd } w).2.analyzed =
        some (pyStripStr r, none)) := by
  have hshape : shapesPhase
      { method := "POST", is_json := true,
        getJson := some { text := dt, file := df, fileType := dft },
        files := fls, rawData := rd } w = (.next ("", none), {}) := by
    unfold shapesPhase jsonShapeNoText
    try dsimp
    rcases htext with h | ⟨tx, h, hstx⟩ <;> subst h
    · rcases honeof with ⟨h1, h2⟩ | ⟨h1, h2⟩
      · subst h2
        cases df with
        | none => exact absurd rfl h1
        | some f => rfl
      · subst h1
        cases dft with
        | none => rfl
        | some ft => rfl
    · try dsimp
      rw [if_neg (by simp [hstx])]
      rcases honeof with ⟨h1, h2⟩ | ⟨h1, h2⟩
      · subst h2
        cases df with
        | none => exact absurd rfl h1
        | some f => rfl
      · subst h1
        cases dft with
        | none => rfl
        | some ft => rfl
  refine ⟨?_, ?_, ?_⟩
  · unfold redtape_reducer
    rw [if_neg (by simp)]
    rw [(runBody_trace_eq _ w).2.2.1, hshape]
  · unfold redtape_reducer
    rw [if_neg (by simp)]
    rw [(runBody_trace_eq _ w).1, hshape]
  · intro r hrd hr
    subst hrd
    unfold redtape_reducer runBody
    rw [if_neg (by simp), hshape]
    dsimp
    unfold rawPhase
    try dsimp
    rw [if_pos hr]
    rw [if_neg hr]
    cases hmr : w.modelReply with
    | error e => simp [hmr]
    | ok raw =>
      cases hl : w.loads (sanitizeStr raw) with
      | ok obj => simp [hmr, hl]
      | error e => simp [hmr, hl]

/-- C9, witness: `file` present without `file_type`, empty `text`. -/
theorem c9_witness :
    (redtape_reducer
      { method := "POST", is_json := true,
        getJson := some { text := some "  ", file := some "QUJD", fileType := none },
        files := [], rawData := some " body " }
      { b64decode := .ok (), readTxt := .ok "", pdfPages := .ok [],
        docxText := .ok "", ocrRead := .ok [], classify := .ok "",
        modelReply := .ok "ok", loads := fun _ => .ok "obj" }).2.b64Called = false ∧
    (redtape_reducer
      { method := "POST", is_json := true,
        getJson := some { text := some "  ", file := some "QUJD", fileType := none },
        files := [], rawData := some " body " }
      { b64decode := .ok (), readTxt := .ok "", pdfPages := .ok [],
        docxText := .ok "", ocrRead := .ok [], classify := .ok "",
        modelReply := .ok "ok", loads := fun _ => .ok "obj" }).2.analyzed =
      some (pyStripStr " body ", none) := by
  have h := c9_file_requires_both_keys (some "  ") (some "QUJD") none []
    (some " body ")
    { b64decode := .ok (), readTxt := .ok "", pdfPages := .ok [],
      docxText := .ok "", ocrRead := .ok [], classify := .ok "",
      modelReply := .ok "ok", loads := fun _ => .ok "obj" }
    (Or.inr ⟨"  ", rfl, by decide⟩) (Or.inl ⟨by simp, rfl⟩)
  exact ⟨h.1, h.2.2 " body " rfl (by decide)⟩

/-! ## Claim C10 -/

/-- C10: extension handling is case-insensitive at every interface.  Two
paths with the same lowercasing behave identically in the text extractor;
two JSON `file_type` values with the same lowercasing produce identical
responses and traces; and so do two multipart filenames with the same
lowercasing (both the branching extension and the temp-file suffix are
insensitive to case). -/
theorem c10_case_insensitive :
    (∀ (p₁ p₂ : String) (w : World), pyLowerStr p₁ = pyLowerStr p₂ →
      extract_text_from_file p₁ w = extract_text_from_file p₂ w) ∧
    (∀ (meth : String) (fls : List (String × String)) (rd : Option String)
      (df : Option String) (ft ft' : String) (w : World),
      pyLowerStr ft = pyLowerStr ft' →
      redtape_reducer
        { method := meth, is_json := true,
          getJson := some { text := none, file := df, fileType := some ft },
          files := fls, rawData := rd } w =
      redtape_reducer
        { method := meth, is_json := true,
          getJson := some { text := none, file := df, fileType := some ft' },
          files := fls, rawData := rd } w) ∧
    (∀ (meth : String) (gj : Option JsonData) (rd : Option String)
      (f f' : String) (w : World), pyLowerStr f = pyLowerStr f' →
      redtape_reducer
        { method := meth, is_json := false, getJson := gj,
          files := [("file", f)], rawData := rd } w =
      redtape_reducer
        { method := meth, is_json := false, getJson := gj,
          files := [("file", f')], rawData := rd } w) := by
  have hdata : ∀ p₁ p₂ : String, pyLowerStr p₁ = pyLowerStr p₂ →
      pyLowerL p₁.data = pyLowerL p₂.data := by
    intro p₁ p₂ h
    exact congrArg String.data h
  have hext : ∀ (p₁ p₂ : String) (w : World), pyLowerStr p₁ = pyLowerStr p₂ →
      extract_text_from_file p₁ w = extract_text_from_file p₂ w := by
    intro p₁ p₂ w h
    unfold extract_text_from_file
    rw [hdata p₁ p₂ h]
  refine ⟨hext, ?_, ?_⟩
  · intro meth fls rd df ft ft' w h
    unfold redtape_reducer runBody shapesPhase jsonShapeNoText jsonFileBranch
      extractDispatch rawPhase
    cases df with
    | none => rfl
    | some f =>
      try dsimp
      rw [h]
  · intro meth gj rd f f' w h
    have hlast : pyLowerStr (String.mk (lastExtL f.data)) =
        pyLowerStr (String.mk (lastExtL f'.data)) := by
      unfold pyLowerStr
      have : pyLowerL (lastExtL f.data) = pyLowerL (lastExtL f'.data) := by
        rw [← lastExtL_map_lower, ← lastExtL_map_lower]
        rw [hdata f f' h]
      rw [this]
    have hpath : pyLowerStr (tmpPathMp f) = pyLowerStr (tmpPathMp f') := by
      unfold tmpPathMp pyLowerStr
      have : pyLowerL (splitextSuffix f.data) = pyLowerL (splitextSuffix f'.data) := by
        rw [← splitextSuffix_map_lower, ← splitextSuffix_map_lower]
        rw [hdata f f' h]
      unfold pyLowerL at this ⊢
      simp only [String.data_append, List.map_append]
      rw [this]
    have hextr : extract_text_from_file (tmpPathMp f) w =
        extract_text_from_file (tmpPathMp f') w := hext _ _ w hpath
    unfold redtape_reducer runBody shapesPhase mpFileBranch extractDispatch
      rawPhase
    try dsimp
    rw [show List.lookup "file" [("file", f)] = some f from by simp [List.lookup]]
    rw [show List.lookup "file" [("file", f')] = some f' from by simp [List.lookup]]
    try dsimp
    rw [hlast, hextr]

/-- C10, witness: the declared type `PDF` and a filename `A.TXT` behave as
their lowercase forms. -/
theorem c10_witness :
    extract_text_from_file "A.TXT"
      { b64decode := .ok (), readTxt := .ok "t", pdfPages := .ok [],
        docxText := .ok "", ocrRead := .ok [], classify := .ok "",
        modelReply := .ok "ok", loads := fun _ => .ok "obj" } =
    extract_text_from_file "a.txt"
      { b64decode := .ok (), readTxt := .ok "t", pdfPages := .ok [],
        docxText := .ok "", ocrRead := .ok [], classify := .ok "",
        modelReply := .ok "ok", loads := fun _ => .ok "obj" } ∧
    redtape_reducer
      { method := "POST", is_json := true,
        getJson := some { text := none, file := some "QUJD", fileType := some "PDF" },
        files := [], rawData := none }
      { b64decode := .ok (), readTxt := .ok "", pdfPages := .ok ["p"],
        docxText := .ok "", ocrRead := .ok [], classify := .ok "",
        modelReply := .ok "ok", loads := fun _ => .ok "obj" } =
    redtape_reducer
      { method := "POST", is_json := true,
        getJson := some { text := none, file := some "QUJD", fileType := some "pdf" },
        files := [], rawData := none }
      { b64decode := .ok (), readTxt := .ok "", pdfPages := .ok ["p"],
        docxText := .ok "", ocrRead := .ok [], classify := .ok "",
        modelReply := .ok "ok", loads := fun _ => .ok "obj" } := by
  constructor
  · exact c10_case_insensitive.1 "A.TXT" "a.txt" _ (by decide)
  · exact c10_case_insensitive.2.1 "POST" [] none (some "QUJD") "PDF" "pdf" _
      (by decide)

/-- C2, witness. -/
theorem c2_witness :
    (redtape_reducer
      { method := "POST", is_json := true,
        getJson :=
          some { text := some "hello", file := some "QUJD", fileType := some "txt" },
        files := [], rawData := some "raw" }
      { b64decode := .ok (), readTxt := .ok "", pdfPages := .ok [],
        docxText := .ok "", ocrRead := .ok [], classify := .ok "",
        modelReply := .ok "ok", loads := fun _ => .ok "obj" }).2 =
    { analyzed := some ("hello", none) } :=
  c2_json_text_priority _ _ _ "hello" rfl rfl rfl rfl (by decide)

end RedTape
